import Mathlib

/-!
Verification of the Listen2 MMS_FA export / INT8-quantization validation
scripts (`scripts/export_mms_fa_model.py`, `scripts/test_int8_quantization.py`).

The scripts are shallowly embedded: emissions are lists of rational logit
vectors, decision paths are lists of label indices (one per frame), and the
script-level control flow (the battery loop, the boundary comparison branch,
the summary classification) becomes explicit Lean functions.  Real/float
arithmetic of the scripts is modelled over `ℚ`.
-/

namespace Listen2

/-- Embedding of the inner loop of `get_word_boundaries`
(`test_int8_quantization.py`, lines 130-138):

```
boundaries = []
current_token = -1
for frame, token_idx in enumerate(path):
    if token_idx != 0 and token_idx != current_token:
        if token_idx == 28:
            boundaries.append(frame)
        current_token = token_idx
return boundaries
```

`current_token` is carried as an `Int` because it is initialised to `-1`,
a value no `Nat` label can equal.  `frame` is the index of the head of the
remaining path. -/
def get_word_boundaries.go (current_token : Int) (frame : Nat) :
    List Nat → List Nat
  | [] => []
  | token_idx :: rest =>
    if token_idx ≠ 0 ∧ (token_idx : Int) ≠ current_token then
      (if token_idx = 28 then [frame] else []) ++
        get_word_boundaries.go (token_idx : Int) (frame + 1) rest
    else
      get_word_boundaries.go current_token (frame + 1) rest

/-- `get_word_boundaries(path, tokens_flat)` from
`test_int8_quantization.py` lines 130-138.  The second argument
`tokens_flat` is present in the Python signature but never read by the
body. -/
def get_word_boundaries (path : List Nat) (tokens_flat : List Nat) :
    List Nat :=
  get_word_boundaries.go (-1) 0 path

/-- The spec's carried state: "maintain last non-blank label seen",
started from `init` (the scripts start it at `-1`, a value unequal to any
label); a non-blank label overwrites it and a blank label leaves it
unchanged. -/
def lastNonBlankSeen (init : Int) (path : List Nat) : Int :=
  path.foldl (fun (acc : Int) (l : Nat) => if l ≠ 0 then (l : Int) else acc) init

theorem lastNonBlankSeen_nil (init : Int) : lastNonBlankSeen init [] = init :=
  rfl

theorem lastNonBlankSeen_cons (init : Int) (l : Nat) (rest : List Nat) :
    lastNonBlankSeen init (l :: rest)
      = lastNonBlankSeen (if l ≠ 0 then (l : Int) else init) rest := by
  simp only [lastNonBlankSeen, List.foldl_cons]

/-- The update `current_token = token_idx`, guarded by
`token_idx != 0 and token_idx != current_token`, computes the same carried
state as the spec's unconditional "last non-blank label seen" fold: when the
label equals the carried value the guarded update is a no-op with the same
result. -/
theorem foldl_current_token_eq_lastNonBlankSeen (path : List Nat) :
    ∀ init : Int,
      path.foldl
          (fun (acc : Int) (l : Nat) =>
            if l ≠ 0 ∧ (l : Int) ≠ acc then (l : Int) else acc)
          init
        = lastNonBlankSeen init path := by
  induction path with
  | nil => intro init; rfl
  | cons l rest ih =>
    intro init
    have hacc :
        (if l ≠ 0 ∧ (l : Int) ≠ init then (l : Int) else init)
          = (if l ≠ 0 then (l : Int) else init) := by
      by_cases h0 : l = 0
      · simp [h0]
      · by_cases hc : (l : Int) = init
        · simp [h0, hc]
        · simp [h0, hc]
    rw [List.foldl_cons, hacc, lastNonBlankSeen_cons]
    exact ih _

/-- Membership characterisation of the scan: a frame index lands in the
output of `go` exactly when its label is the separator `28` and the
carried "last non-blank label seen" over the frames already consumed
differs from `28`.  `frame` offsets all emitted indices. -/
theorem mem_go_iff (path : List Nat) :
    ∀ (cur : Int) (frame j : Nat),
      j ∈ get_word_boundaries.go cur frame path ↔
        ∃ i : Nat, i < path.length ∧ j = frame + i ∧ path.getD i 0 = 28 ∧
          lastNonBlankSeen cur (path.take i) ≠ 28 := by
  induction path with
  | nil => intro cur frame j; simp [get_word_boundaries.go]
  | cons l rest ih =>
    intro cur frame j
    have htake : ∀ i : Nat,
        lastNonBlankSeen cur (List.take (i + 1) (l :: rest))
          = lastNonBlankSeen (if l ≠ 0 then (l : Int) else cur)
              (List.take i rest) := by
      intro i
      rw [List.take_succ_cons, lastNonBlankSeen_cons]
    rw [get_word_boundaries.go]
    by_cases hcond : l ≠ 0 ∧ (l : Int) ≠ cur
    · rw [if_pos hcond]
      have hAcc : (if l ≠ 0 then (l : Int) else cur) = (l : Int) :=
        if_pos hcond.1
      constructor
      · intro hmem
        rcases List.mem_append.mp hmem with hhead | htail
        · by_cases h28 : l = 28
          · rw [if_pos h28] at hhead
            have hj : j = frame := List.mem_singleton.mp hhead
            refine ⟨0, by simp, by omega, by simpa using h28, ?_⟩
            rw [List.take_zero, lastNonBlankSeen_nil]
            intro hc
            apply hcond.2
            rw [hc, h28]
            norm_num
          · rw [if_neg h28] at hhead
            exact absurd hhead (List.not_mem_nil j)
        · rcases (ih (l : Int) (frame + 1) j).mp htail with ⟨i, hi, hj, hg, hl⟩
          refine ⟨i + 1, by simp only [List.length_cons]; omega, by omega,
            by simpa using hg, ?_⟩
          rw [htake i, hAcc]
          exact hl
      · rintro ⟨i, hi, hj, hg, hl⟩
        rcases i with _ | i
        · apply List.mem_append.mpr
          left
          have h28 : l = 28 := by simpa using hg
          rw [if_pos h28]
          simp only [List.mem_singleton]
          omega
        · apply List.mem_append.mpr
          right
          apply (ih (l : Int) (frame + 1) j).mpr
          refine ⟨i, by simp only [List.length_cons] at hi; omega, by omega,
            by simpa using hg, ?_⟩
          rw [htake i, hAcc] at hl
          exact hl
    · rw [if_neg hcond]
      have hAcc : (if l ≠ 0 then (l : Int) else cur) = cur := by
        rcases not_and_or.mp hcond with h0 | hc
        · simp [not_not.mp h0]
        · rcases eq_or_ne l 0 with h0 | h0
          · simp [h0]
          · simp [h0, not_not.mp hc]
      rw [ih cur (frame + 1) j]
      constructor
      · rintro ⟨i, hi, hj, hg, hl⟩
        refine ⟨i + 1, by simp only [List.length_cons]; omega, by omega,
          by simpa using hg, ?_⟩
        rw [htake i, hAcc]
        exact hl
      · rintro ⟨i, hi, hj, hg, hl⟩
        rcases i with _ | i
        · exfalso
          have h28 : l = 28 := by simpa using hg
          rw [List.take_zero, lastNonBlankSeen_nil] at hl
          rcases not_and_or.mp hcond with h0 | hc
          · exact h0 (by simp [h28])
          · apply hl
            rw [← not_not.mp hc, h28]
            norm_num
        · refine ⟨i, by simp only [List.length_cons] at hi; omega, by omega,
            by simpa using hg, ?_⟩
          rw [htake i, hAcc] at hl
          exact hl

/-- Every index produced by `go` is at least the running frame counter and
below `frame + path.length`. -/
theorem go_bounds (path : List Nat) (cur : Int) (frame j : Nat)
    (h : j ∈ get_word_boundaries.go cur frame path) :
    frame ≤ j ∧ j < frame + path.length := by
  rcases (mem_go_iff path cur frame j).mp h with ⟨i, hi, rfl, -, -⟩
  omega

/-- The scan emits a strictly increasing list of frame indices. -/
theorem go_pairwise (path : List Nat) :
    ∀ (cur : Int) (frame : Nat),
      List.Pairwise (· < ·) (get_word_boundaries.go cur frame path) := by
  induction path with
  | nil => intro cur frame; simp [get_word_boundaries.go]
  | cons l rest ih =>
    intro cur frame
    rw [get_word_boundaries.go]
    by_cases hcond : l ≠ 0 ∧ (l : Int) ≠ cur
    · rw [if_pos hcond]
      by_cases h28 : l = 28
      · rw [if_pos h28]
        refine List.pairwise_cons.mpr ⟨?_, ih _ _⟩
        intro j hj
        have := go_bounds rest (l : Int) (frame + 1) j hj
        omega
      · rw [if_neg h28]
        simpa using ih (l : Int) (frame + 1)
    · rw [if_neg hcond]
      exact ih cur (frame + 1)

/-- Embedding of the boundary-comparison branch of
`test_int8_quantization.py` lines 148-149:
`diffs_frames = [abs(a - b) for a, b in zip(fp32_boundaries, int8_boundaries)]`. -/
def diffs_frames (fp32_boundaries int8_boundaries : List Nat) : List Nat :=
  (fp32_boundaries.zip int8_boundaries).map
    (fun p => ((p.1 : Int) - (p.2 : Int)).natAbs)

/-- `diffs_ms = [d * 20 for d in diffs_frames]  # 20ms per frame`
(line 149). -/
def diffs_ms (fp32_boundaries int8_boundaries : List Nat) : List Nat :=
  (diffs_frames fp32_boundaries int8_boundaries).map (fun d => d * 20)

/-- The comparison branch, lines 147-154: when the two boundary lists have
equal length the per-boundary millisecond deltas are produced; otherwise
only the structural-mismatch warning is emitted and no numeric delta
exists (`none`). -/
def compare_boundaries (fp32_boundaries int8_boundaries : List Nat) :
    Option (List Nat) :=
  if fp32_boundaries.length = int8_boundaries.length then
    some (diffs_ms fp32_boundaries int8_boundaries)
  else
    none

/-- C1: the boundary derivation is a single left-to-right scan carrying the
"last non-blank label seen" (started at `-1`, unequal to any label): a frame
index `j` is in the Boundary Set exactly when the label at `j` is non-blank,
differs from the carried last non-blank label over the preceding frames, and
equals the word-separator index `28`; and the code's guarded state update
computes exactly the spec's "last non-blank label seen" fold, so any
non-blank differing label updates the carried state and blank frames change
nothing. -/
theorem C1_boundary_scan_characterisation (path tokens_flat : List Nat) :
    (∀ j : Nat,
        j ∈ get_word_boundaries path tokens_flat ↔
          j < path.length ∧ path.getD j 0 ≠ 0 ∧
            (path.getD j 0 : Int) ≠ lastNonBlankSeen (-1) (path.take j) ∧
            path.getD j 0 = 28) ∧
    (∀ init : Int,
        path.foldl
            (fun (acc : Int) (l : Nat) =>
              if l ≠ 0 ∧ (l : Int) ≠ acc then (l : Int) else acc)
            init
          = lastNonBlankSeen init path) := by
  constructor
  · intro j
    rw [get_word_boundaries, mem_go_iff]
    constructor
    · rintro ⟨i, hi, hj, hg, hl⟩
      have hij : j = i := by omega
      subst hij
      refine ⟨hi, by omega, ?_, hg⟩
      rw [hg]
      intro hc
      exact hl hc.symm
    · rintro ⟨hj, -, hne, hg⟩
      refine ⟨j, hj, by omega, hg, ?_⟩
      intro hc
      apply hne
      rw [hg, hc]
      norm_num
  · exact fun init => foldl_current_token_eq_lastNonBlankSeen path init

/-- C2: when the two Boundary Sets have equal length, every reported delta
is `abs(frame_a - frame_b) * 20` milliseconds; when the lengths differ, no
numeric delta is emitted. -/
theorem C2_boundary_delta_report (a b : List Nat) :
    (a.length = b.length →
      compare_boundaries a b = some (diffs_ms a b) ∧
        (diffs_ms a b).length = a.length ∧
        ∀ i : Nat, i < a.length →
          (diffs_ms a b).getD i 0
            = (((a.getD i 0 : Int) - (b.getD i 0 : Int)).natAbs) * 20) ∧
    (a.length ≠ b.length → compare_boundaries a b = none) := by
  constructor
  · intro hlen
    have hlz : (a.zip b).length = a.length := by
      rw [List.length_zip, hlen, Nat.min_self]
    have hld : (diffs_ms a b).length = a.length := by
      simp [diffs_ms, diffs_frames, hlz]
    refine ⟨by simp [compare_boundaries, hlen], hld, ?_⟩
    intro i hi
    have hdm : i < (diffs_ms a b).length := by omega
    have hbi : i < b.length := by omega
    rw [List.getD_eq_getElem _ _ hdm, List.getD_eq_getElem _ _ hi,
      List.getD_eq_getElem _ _ hbi]
    simp [diffs_ms, diffs_frames]
  · intro hlen
    simp [compare_boundaries, hlen]

/-- Witness for C2 at concrete boundary lists: equal lengths yield the
delta list, differing lengths yield no delta. -/
theorem C2_boundary_delta_report_witness :
    compare_boundaries [10, 50] [12, 45] = some (diffs_ms [10, 50] [12, 45]) ∧
    compare_boundaries [10] [] = none :=
  ⟨((C2_boundary_delta_report [10, 50] [12, 45]).1 rfl).1,
   (C2_boundary_delta_report [10] []).2 (by decide)⟩

/-- C9: `get_word_boundaries` never reads its `tokens_flat` argument, so
the Boundary Set depends only on the Decision Path. -/
theorem C9_boundaries_independent_of_targets (path t1 t2 : List Nat) :
    get_word_boundaries path t1 = get_word_boundaries path t2 :=
  rfl

/-- C10: the Boundary Set is a strictly increasing list of frame indices,
each below the path length; the empty path yields the empty Boundary Set
(strict increase in particular forbids duplicates). -/
theorem C10_boundary_set_invariants (path tokens_flat : List Nat) :
    List.Pairwise (· < ·) (get_word_boundaries path tokens_flat) ∧
    (∀ j ∈ get_word_boundaries path tokens_flat, j < path.length) ∧
    get_word_boundaries [] tokens_flat = [] := by
  refine ⟨go_pairwise path (-1) 0, ?_, rfl⟩
  intro j hj
  have := go_bounds path (-1) 0 j hj
  omega

/-- Inner loop of `np.argmax`: track the best index and best value so far;
a strictly larger value replaces the best, so ties keep the first
occurrence. -/
def np_argmax.go (best_idx : Nat) (best_val : ℚ) (i : Nat) : List ℚ → Nat
  | [] => best_idx
  | x :: rest =>
    if best_val < x then np_argmax.go i x (i + 1) rest
    else np_argmax.go best_idx best_val (i + 1) rest

/-- `np.argmax` over one frame's vocabulary scores: the index of the first
occurrence of the maximal score (0 on the empty list, which does not occur
for real emissions). -/
def np_argmax : List ℚ → Nat
  | [] => 0
  | x :: rest => np_argmax.go 0 x 1 rest

/-- Lines 80-83 of `test_int8_quantization.py` for one test case:
`fp32_argmax = np.argmax(fp32_out, axis=-1)`, likewise for INT8, then
`matching_frames = np.sum(fp32_argmax == int8_argmax)`.  Emissions are the
per-frame score rows of the (batch-1) output. -/
def matching_frames (fp32_out int8_out : List (List ℚ)) : Nat :=
  ((fp32_out.map np_argmax).zip (int8_out.map np_argmax)).countP
    (fun p => decide (p.1 = p.2))

/-- `total_frames = fp32_argmax.size` (line 83). -/
def total_frames (fp32_out : List (List ℚ)) : Nat :=
  fp32_out.length

/-- `match_rate = matching_frames / total_frames * 100` (line 84). -/
def match_rate (fp32_out int8_out : List (List ℚ)) : ℚ :=
  (matching_frames fp32_out int8_out : ℚ) / (total_frames fp32_out : ℚ) * 100

/-- `avg_match = sum(d["match_rate"] for d in all_diffs) / len(all_diffs)`
(line 163). -/
def avg_match (match_rates : List ℚ) : ℚ :=
  match_rates.sum / (match_rates.length : ℚ)

/-- Counting agreeing positions of the zip of two equal-length lists equals
counting the indices at which the lists agree. -/
theorem countP_zip_eq_countP_range {α : Type} [DecidableEq α] (d : α) :
    ∀ xs ys : List α, xs.length = ys.length →
      (xs.zip ys).countP (fun p => decide (p.1 = p.2))
        = (List.range xs.length).countP
            (fun i => decide (xs.getD i d = ys.getD i d)) := by
  intro xs
  induction xs with
  | nil =>
    intro ys hlen
    simp
  | cons x xs ih =>
    intro ys hlen
    match ys with
    | [] => simp at hlen
    | y :: ys =>
      simp only [List.length_cons, Nat.succ.injEq] at hlen
      rw [List.zip_cons_cons, List.countP_cons, ih ys hlen,
        List.length_cons, List.range_succ_eq_map, List.countP_cons,
        List.countP_map]
      have hcong :
          (List.range xs.length).countP
              ((fun i => decide ((x :: xs).getD i d = (y :: ys).getD i d))
                ∘ (· + 1))
            = (List.range xs.length).countP
                (fun i => decide (xs.getD i d = ys.getD i d)) := by
        apply List.countP_congr
        intro i _
        simp [List.getD_cons_succ]
      rw [hcong]
      simp [List.getD_cons_zero]

/-- For equal-length emission matrices, the code's zip-and-count of
agreeing argmaxes equals the index-based count of frames whose top-1
labels coincide. -/
theorem matching_frames_eq_countP_range (fp32_out int8_out : List (List ℚ))
    (hlen : fp32_out.length = int8_out.length) :
    matching_frames fp32_out int8_out
      = (List.range (total_frames fp32_out)).countP
          (fun i => decide (np_argmax (fp32_out.getD i [])
            = np_argmax (int8_out.getD i []))) := by
  rw [matching_frames,
    countP_zip_eq_countP_range (np_argmax [])
      (fp32_out.map np_argmax) (int8_out.map np_argmax)
      (by simp [hlen])]
  rw [List.length_map]
  apply List.countP_congr
  intro i hi
  have hi1 : i < fp32_out.length := by simpa using List.mem_range.mp hi
  have hi2 : i < int8_out.length := by omega
  have e1 : (fp32_out.map np_argmax).getD i (np_argmax [])
      = np_argmax (fp32_out.getD i []) := by
    rw [List.getD_eq_getElem _ _ (by simpa using hi1),
      List.getD_eq_getElem _ _ hi1, List.getElem_map]
  have e2 : (int8_out.map np_argmax).getD i (np_argmax [])
      = np_argmax (int8_out.getD i []) := by
    rw [List.getD_eq_getElem _ _ (by simpa using hi2),
      List.getD_eq_getElem _ _ hi2, List.getElem_map]
  rw [e1, e2]

/-- C3: for each test case, the per-frame top-1 agreement rate equals
(count of frames whose argmax label indices coincide) / (total frames),
expressed by the script as a percentage; and the battery aggregate is the
arithmetic mean of the per-case rates. -/
theorem C3_agreement_rate_and_mean (fp32_out int8_out : List (List ℚ))
    (hlen : fp32_out.length = int8_out.length)
    (cases : List (List (List ℚ) × List (List ℚ))) :
    match_rate fp32_out int8_out
      = (((List.range (total_frames fp32_out)).countP
            (fun i => decide (np_argmax (fp32_out.getD i [])
              = np_argmax (int8_out.getD i []))) : ℚ)
          / (total_frames fp32_out : ℚ)) * 100 ∧
    avg_match (cases.map (fun c => match_rate c.1 c.2))
      = ((cases.map (fun c => match_rate c.1 c.2)).sum : ℚ)
          / (cases.length : ℚ) := by
  constructor
  · rw [match_rate, matching_frames_eq_countP_range fp32_out int8_out hlen]
  · rw [avg_match, List.length_map]

/-- Witness for C3: identical one-frame emissions give a 100% match
rate. -/
theorem C3_agreement_rate_and_mean_witness :
    match_rate [[(1 : ℚ), 0]] [[(1 : ℚ), 0]] = 100 := by
  have h := C3_agreement_rate_and_mean [[(1 : ℚ), 0]] [[(1 : ℚ), 0]] rfl []
  rw [h.1]
  have hc : (List.range (total_frames [[(1 : ℚ), 0]])).countP
      (fun i => decide (np_argmax ([[(1 : ℚ), 0]].getD i [])
        = np_argmax ([[(1 : ℚ), 0]].getD i []))) = 1 := by decide
  rw [hc]
  norm_num [total_frames]

/-- The three-way verdict printed by the summary block. -/
inductive SummaryClass where
  | pass
  | warn
  | fail
deriving DecidableEq

/-- Lines 169-177 of `test_int8_quantization.py`:
`if avg_match >= 95: PASS; elif avg_match >= 90: WARN; else: FAIL`. -/
def summary_classification (avg_match_rate : ℚ) : SummaryClass :=
  if avg_match_rate ≥ 95 then SummaryClass.pass
  else if avg_match_rate ≥ 90 then SummaryClass.warn
  else SummaryClass.fail

/-- C4: the classification is a total three-way function of the aggregate
average match rate: at least 95 gives PASS, the band [90, 95) gives WARN,
below 90 gives FAIL, and every value receives exactly one of the three
verdicts. -/
theorem C4_classification_three_way (a : ℚ) :
    (95 ≤ a → summary_classification a = SummaryClass.pass) ∧
    (90 ≤ a → a < 95 → summary_classification a = SummaryClass.warn) ∧
    (a < 90 → summary_classification a = SummaryClass.fail) ∧
    (summary_classification a = SummaryClass.pass ∨
      summary_classification a = SummaryClass.warn ∨
      summary_classification a = SummaryClass.fail) := by
  refine ⟨?_, ?_, ?_, ?_⟩
  · intro h
    simp [summary_classification, ge_iff_le, h]
  · intro h90 h95
    have h1 : ¬ a ≥ 95 := not_le.mpr h95
    simp [summary_classification, h1, ge_iff_le, h90]
  · intro h
    have h1 : ¬ a ≥ 95 := not_le.mpr (by linarith)
    have h2 : ¬ a ≥ 90 := not_le.mpr h
    simp [summary_classification, h1, h2]
  · unfold summary_classification
    split_ifs <;> simp

/-- Witness for C4 at 96, 92 and 80. -/
theorem C4_classification_three_way_witness :
    summary_classification 96 = SummaryClass.pass ∧
    summary_classification 92 = SummaryClass.warn ∧
    summary_classification 80 = SummaryClass.fail :=
  ⟨(C4_classification_three_way 96).1 (by norm_num),
   (C4_classification_three_way 92).2.1 (by norm_num) (by norm_num),
   (C4_classification_three_way 80).2.2.1 (by norm_num)⟩

/-- A session failing to produce a result for a test case (the spec's
`InferenceRunError`). -/
inductive InferenceRunError where
  | runFailed (case_index : Nat)
deriving DecidableEq

/-- Embedding of the cross-precision battery loop
(`test_int8_quantization.py` lines 69-98): for each test case the script
runs both sessions and computes the per-case metrics, collecting them in
`all_diffs`.  The loop body has no exception handler, so a failing session
run propagates out of the loop; in the embedding the loop returns that
error and no list of per-case rates exists. -/
def battery_loop
    (run_fp32 run_int8 : Nat → Except InferenceRunError (List (List ℚ))) :
    List Nat → Except InferenceRunError (List ℚ)
  | [] => Except.ok []
  | c :: rest => do
    let fp32_out ← run_fp32 c
    let int8_out ← run_int8 c
    let rates ← battery_loop run_fp32 run_int8 rest
    Except.ok (match_rate fp32_out int8_out :: rates)

/-- A full-precision session whose run fails on test case `1` and succeeds
elsewhere. -/
def failing_fp32_session :
    Nat → Except InferenceRunError (List (List ℚ)) :=
  fun c =>
    if c = 1 then Except.error (InferenceRunError.runFailed 1)
    else Except.ok [[(1 : ℚ), 0]]

/-- An INT8 session that always succeeds. -/
def ok_int8_session : Nat → Except InferenceRunError (List (List ℚ)) :=
  fun _ => Except.ok [[(1 : ℚ), 0]]

/-- C5 counterexample: with a session that fails on the second test case,
the battery aborts with the error — the remaining test cases produce no
per-case entries and no aggregate exists, contradicting
"records the case, excludes it from the mean and continues". -/
theorem C5_battery_abort_counterexample :
    battery_loop failing_fp32_session ok_int8_session [0, 1, 2]
      = Except.error (InferenceRunError.runFailed 1) :=
  rfl

/-- A full-precision session that always succeeds. -/
def ok_fp32_session : Nat → Except InferenceRunError (List (List ℚ)) :=
  fun _ => Except.ok [[(1 : ℚ), 0]]

/-- An INT8 session whose run fails on test case `2` and succeeds
elsewhere. -/
def failing_int8_session :
    Nat → Except InferenceRunError (List (List ℚ)) :=
  fun c =>
    if c = 2 then Except.error (InferenceRunError.runFailed 2)
    else Except.ok [[(1 : ℚ), 0]]

/-- C5 (amended): a failing run of either session on any test case makes
the whole battery loop return that error — the line-71 FP32 run and the
line-72 INT8 run are equally unguarded — so the failure propagates and
aborts the rest of the battery instead of being recorded and skipped. -/
theorem C5_battery_propagates_failure
    (run_fp32 run_int8 : Nat → Except InferenceRunError (List (List ℚ)))
    (c : Nat) (rest : List Nat) (e : InferenceRunError) :
    (run_fp32 c = Except.error e →
      battery_loop run_fp32 run_int8 (c :: rest) = Except.error e) ∧
    (∀ fp32_out, run_fp32 c = Except.ok fp32_out →
      run_int8 c = Except.error e →
      battery_loop run_fp32 run_int8 (c :: rest) = Except.error e) := by
  constructor
  · intro h
    simp only [battery_loop, h]
    rfl
  · intro fp32_out hok herr
    simp only [battery_loop, hok, herr]
    rfl

/-- Witness for the amended C5: one concrete battery aborted by an FP32
run failure and one aborted by an INT8 run failure. -/
theorem C5_battery_propagates_failure_witness :
    battery_loop failing_fp32_session ok_int8_session [1]
      = Except.error (InferenceRunError.runFailed 1) ∧
    battery_loop ok_fp32_session failing_int8_session [2]
      = Except.error (InferenceRunError.runFailed 2) :=
  ⟨(C5_battery_propagates_failure failing_fp32_session ok_int8_session 1 []
      (InferenceRunError.runFailed 1)).1 rfl,
   (C5_battery_propagates_failure ok_fp32_session failing_int8_session 2 []
      (InferenceRunError.runFailed 2)).2 [[(1 : ℚ), 0]] rfl rfl⟩

/-- A Python value as seen by `EmissionsOnlyWrapper.forward`: the wrapped
model may return a tensor, a tuple, or something else entirely; the
wrapper only ever tests for `tuple`. -/
inductive PyValue where
  | tensor (data : List (List (List ℚ)))
  | tup (elems : List PyValue)
  | other

/-- `EmissionsOnlyWrapper.forward` (`export_mms_fa_model.py` lines
122-126):

```
output = self.model(audio)
if isinstance(output, tuple):
    return output[0]
return output
```

`output[0]` on an empty tuple would raise `IndexError`, modelled by
`none`; every other output (tuple first element or bare value) is returned
unchanged, with no type check anywhere. -/
def EmissionsOnlyWrapper.forward (model : List ℚ → PyValue)
    (audio : List ℚ) : Option PyValue :=
  match model audio with
  | PyValue.tup elems => elems.head?
  | out => some out

/-- A model whose output is neither a tensor nor a tuple. -/
def non_tensor_model : List ℚ → PyValue :=
  fun _ => PyValue.other

/-- A model returning a tuple whose first element is not a tensor. -/
def tuple_of_non_tensor_model : List ℚ → PyValue :=
  fun _ => PyValue.tup [PyValue.other]

/-- A model returning a tuple whose first element is a tensor. -/
def tuple_model : List ℚ → PyValue :=
  fun _ => PyValue.tup [PyValue.tensor [], PyValue.other]

/-- C6 counterexample: on an output that is neither a bare tensor nor a
tuple with a tensor first element, the wrapper does not fail with any
`ShapeContractViolation` — it silently passes the value through (and for a
tuple it returns the non-tensor first element). -/
theorem C6_no_validation_counterexample :
    EmissionsOnlyWrapper.forward non_tensor_model [] = some PyValue.other ∧
    EmissionsOnlyWrapper.forward tuple_of_non_tensor_model []
      = some PyValue.other :=
  ⟨rfl, rfl⟩

/-- C6 (amended): the wrapper returns the first element whenever the
model's output is a (non-empty) tuple and the output itself otherwise; it
performs no validation, so a non-tensor output is returned unchanged
rather than rejected, and only an empty tuple fails (`IndexError`,
modelled as `none`). -/
theorem C6_forward_behaviour (model : List ℚ → PyValue) (audio : List ℚ) :
    (∀ t, model audio = PyValue.tensor t →
      EmissionsOnlyWrapper.forward model audio = some (PyValue.tensor t)) ∧
    (∀ x elems, model audio = PyValue.tup (x :: elems) →
      EmissionsOnlyWrapper.forward model audio = some x) ∧
    (model audio = PyValue.other →
      EmissionsOnlyWrapper.forward model audio = some PyValue.other) ∧
    (model audio = PyValue.tup [] →
      EmissionsOnlyWrapper.forward model audio = none) := by
  refine ⟨?_, ?_, ?_, ?_⟩
  · intro t h
    simp [EmissionsOnlyWrapper.forward, h]
  · intro x elems h
    simp [EmissionsOnlyWrapper.forward, h]
  · intro h
    simp [EmissionsOnlyWrapper.forward, h]
  · intro h
    simp [EmissionsOnlyWrapper.forward, h]

/-- Witness for the amended C6: a tuple-returning model yields its first
element. -/
theorem C6_forward_behaviour_witness :
    EmissionsOnlyWrapper.forward tuple_model [] = some (PyValue.tensor []) :=
  (C6_forward_behaviour tuple_model []).2.1 (PyValue.tensor [])
    [PyValue.other] rfl

/-- Byte sizes of an exported artifact: the graph file plus an optional
external weight blob alongside it. -/
structure ArtifactSizes where
  file_bytes : Nat
  data_bytes : Option Nat

/-- `os.path.getsize(...) / 1024 / 1024`: bytes to megabytes (lines
34-38 of `test_int8_quantization.py`). -/
def to_mb (bytes : Nat) : ℚ :=
  (bytes : ℚ) / 1024 / 1024

/-- Lines 34-42: the FP32 blob size is read unconditionally
(`os.path.getsize(fp32_model + ".data")` raises `FileNotFoundError` when
the blob is absent, and the surrounding handler exits — modelled as
`none`); the INT8 blob size is `getsize(...) if os.path.exists(...) else
0`; the reported ratio is the quotient of the MB totals. -/
def compression_ratio (fp32 int8 : ArtifactSizes) : Option ℚ :=
  match fp32.data_bytes with
  | none => none
  | some fp32_data =>
    some ((to_mb fp32.file_bytes + to_mb fp32_data)
      / (to_mb int8.file_bytes
          + (match int8.data_bytes with
             | some d => to_mb d
             | none => 0)))

/-- C7 counterexample: for a full-precision artifact without an external
blob the script computes no ratio at all (the unconditional `getsize`
fails), instead of treating the missing blob as zero bytes as the claim
states for every pair. -/
theorem C7_missing_fp32_blob_counterexample :
    compression_ratio ⟨5, none⟩ ⟨3, none⟩ = none ∧
    compression_ratio ⟨5, none⟩ ⟨3, none⟩ ≠ some ((5 : ℚ) / 3) := by
  constructor
  · rfl
  · intro h
    simp [compression_ratio] at h

/-- The MB conversions cancel in a quotient of MB quantities. -/
theorem to_mb_ratio (x y : ℚ) :
    x / 1024 / 1024 / (y / 1024 / 1024) = x / y := by
  rw [show x / 1024 / 1024 = x / (1024 * 1024) from div_div x 1024 1024,
    show y / 1024 / 1024 = y / (1024 * 1024) from div_div y 1024 1024]
  exact div_div_div_cancel_right₀
    (show (1024 * 1024 : ℚ) ≠ 0 by norm_num) x y

/-- The MB conversions also cancel for sums of two sizes on each side. -/
theorem mb_total_ratio (a b c d : ℚ) :
    (a / 1024 / 1024 + b / 1024 / 1024) / (c / 1024 / 1024 + d / 1024 / 1024)
      = (a + b) / (c + d) := by
  rw [div_add_div_same, div_add_div_same, div_add_div_same, div_add_div_same]
  exact to_mb_ratio _ _

/-- C7 (amended): whenever the full-precision artifact has an external
blob, the reported ratio equals (fp32 file + blob bytes) divided by
(int8 file bytes + blob bytes, the blob contributing zero when absent);
the MB conversions cancel exactly. -/
theorem C7_compression_ratio_formula (fp_file fp_data i8_file : Nat)
    (i8_data : Option Nat) :
    compression_ratio ⟨fp_file, some fp_data⟩ ⟨i8_file, i8_data⟩
      = some (((fp_file + fp_data : Nat) : ℚ)
          / ((i8_file + i8_data.getD 0 : Nat) : ℚ)) := by
  rcases i8_data with _ | d
  · simp only [compression_ratio, to_mb, Option.getD_none]
    congr 1
    push_cast
    simp only [add_zero]
    rw [div_add_div_same, div_add_div_same]
    exact to_mb_ratio _ _
  · simp only [compression_ratio, to_mb, Option.getD_some]
    congr 1
    push_cast
    exact mb_total_ratio _ _ _ _

/-- Concrete instance of the amended C7 at explicit artifact sizes. -/
theorem C7_compression_ratio_formula_witness :
    compression_ratio ⟨5, some 2⟩ ⟨3, some 1⟩
      = some (((5 + 2 : Nat) : ℚ) / ((3 + (some 1).getD 0 : Nat) : ℚ)) :=
  C7_compression_ratio_formula 5 2 3 (some 1)

/-- `np.abs(ort_output[0] - pt_output).max()` over the flattened emission
tensors (`export_mms_fa_model.py` line 197): the maximum of the
elementwise absolute differences, as a left fold of `max` started at `0`
(all absolute differences are nonnegative, so for the nonempty tensors of
the script the extra `0` does not change the maximum). -/
def max_abs_diff (a b : List ℚ) : ℚ :=
  ((a.zip b).map (fun p => |p.1 - p.2|)).foldl max 0

/-- Line 203 of `export_mms_fa_model.py`: `if max_diff < 1e-4:` prints
PASS, anything else prints the warning.  The script's literal `1e-4` is
`1 / 10000`. -/
def onnx_verification_pass (max_diff : ℚ) : Bool :=
  max_diff < 1 / 10000

/-- Specification-side definition, from the spec's words: "Pass threshold:
max difference below a configurable tolerance (reference default 1e-4)" —
the same comparison with the tolerance as a parameter. -/
def parity_pass_spec (tolerance : ℚ) (max_diff : ℚ) : Bool :=
  max_diff < tolerance

/-- A left fold of `max` stays below a bound exactly when the start value
and every folded element do. -/
theorem foldl_max_lt_iff (t : ℚ) (l : List ℚ) :
    ∀ init : ℚ, l.foldl max init < t ↔ init < t ∧ ∀ x ∈ l, x < t := by
  induction l with
  | nil => intro init; simp
  | cons x xs ih =>
    intro init
    rw [List.foldl_cons, ih]
    simp [max_lt_iff, and_assoc]

/-- C8: the export's verification classifies PASS exactly when the maximum
elementwise absolute difference of the two emission tensors is below the
tolerance; the script's check is the spec's configurable-tolerance check
instantiated at the reference default `1e-4`, and passing is equivalent to
every elementwise absolute difference being below that tolerance. -/
theorem C8_verification_pass_iff (a b : List ℚ)
    (hlen : a.length = b.length) :
    (onnx_verification_pass (max_abs_diff a b)
      = parity_pass_spec (1 / 10000) (max_abs_diff a b)) ∧
    (onnx_verification_pass (max_abs_diff a b) = true ↔
      max_abs_diff a b < 1 / 10000) ∧
    (onnx_verification_pass (max_abs_diff a b) = true ↔
      ∀ i : Nat, i < a.length → |a.getD i 0 - b.getD i 0| < 1 / 10000) := by
  refine ⟨rfl, decide_eq_true_iff, ?_⟩
  rw [onnx_verification_pass, decide_eq_true_iff, max_abs_diff,
    foldl_max_lt_iff]
  constructor
  · rintro ⟨-, hall⟩ i hi
    have hbi : i < b.length := by omega
    have hzi : i < (a.zip b).length := by
      rw [List.length_zip]
      omega
    have hmem : |a[i] - b[i]| ∈ (a.zip b).map (fun p => |p.1 - p.2|) := by
      apply List.mem_map.mpr
      refine ⟨(a[i], b[i]), ?_, rfl⟩
      have : (a.zip b)[i] = (a[i], b[i]) := List.getElem_zip
      rw [← this]
      exact List.getElem_mem hzi
    have := hall _ hmem
    rwa [List.getD_eq_getElem _ _ hi, List.getD_eq_getElem _ _ hbi]
  · intro hall
    refine ⟨by norm_num, ?_⟩
    intro y hy
    rcases List.mem_map.mp hy with ⟨p, hp, rfl⟩
    rcases List.mem_iff_getElem.mp hp with ⟨i, hzi, rfl⟩
    have hai : i < a.length := by
      rw [List.length_zip] at hzi
      omega
    have hbi : i < b.length := by
      rw [List.length_zip] at hzi
      omega
    have hz : (a.zip b)[i] = (a[i], b[i]) := List.getElem_zip
    rw [hz]
    have := hall i hai
    rwa [List.getD_eq_getElem _ _ hai, List.getD_eq_getElem _ _ hbi] at this

/-- Witness for C8 at concrete emission tensors within tolerance. -/
theorem C8_verification_pass_iff_witness :
    onnx_verification_pass
        (max_abs_diff [(1 : ℚ), 2] [(1 : ℚ) + 1 / 100000, 2]) = true :=
  ((C8_verification_pass_iff [(1 : ℚ), 2] [(1 : ℚ) + 1 / 100000, 2]
      rfl).2.2).mpr (by
    intro i hi
    have h2 : i < 2 := by simpa using hi
    interval_cases i <;> norm_num [abs_lt])

end Listen2
